import Mathlib

/-
  Verification development for the White House RSS scraper
  (src/whitehouse_rss_scraper.py).

  The Python program is shallowly embedded: each Python function of the
  extraction pipeline becomes a Lean definition over explicit data.
  Python strings are Lean `String`s (a list of Unicode scalar values,
  matching Python's code-point view); `str.lower` is modelled by the
  ASCII `Char.toLower`, `str.strip` by dropping whitespace at both ends,
  and `sub in s` by substring containment.  `datetime` values in UTC are
  modelled by `PyDateTime` (year/month/day plus an order-encoded
  time-of-day field); the comparison used for sorting is the numeric key
  `dtKey`, which is order-isomorphic to the lexicographic comparison
  Python uses on valid datetimes.  `datetime.now(timezone.utc)` is a
  parameter `now` threaded through the pipeline (the run is modelled at
  one frozen instant).

  BeautifulSoup values are embedded at the level the code reads them:
  an `<a>` element found by `find_all('a', href=True)` becomes a `Link`
  carrying its `href` attribute, its `get_text(strip=True)` text and the
  `get_text()` of its ancestor chain; an article page becomes a `Node`
  tree.  The HTTP layer and the feedgen serializer are external
  collaborators per the specification and are modelled as oracles
  (`World.listing`, `World.body`) and as the structured item list
  `generate_rss` respectively.
-/

namespace WHScraper

/-! ### Python string primitives -/

/-- Python `sub in s` on character lists: `pat` occurs contiguously. -/
def containsSeq (pat : List Char) : List Char → Bool
  | [] => pat.isEmpty
  | c :: cs => pat.isPrefixOf (c :: cs) || containsSeq pat cs

/-- Python `pat in s` (substring test). -/
def pyContains (s pat : String) : Bool := containsSeq pat.data s.data

/-- Python `s.startswith(pre)`. -/
def pyStartsWith (s pre : String) : Bool := pre.data.isPrefixOf s.data

/-- Drop trailing whitespace (Python `rstrip()` on chars). -/
def rtrimWs (l : List Char) : List Char :=
  (l.reverse.dropWhile Char.isWhitespace).reverse

/-- Python `s.strip()` on chars: whitespace removed at both ends. -/
def trimChars (l : List Char) : List Char :=
  (rtrimWs l).dropWhile Char.isWhitespace

/-- Python `s.strip()`. -/
def pyStrip (s : String) : String := ⟨trimChars s.data⟩

/-- Python `s.lower()` (ASCII case folding, which covers every string the
program compares case-insensitively). -/
def pyLower (s : String) : String := ⟨s.data.map Char.toLower⟩

/-- Python `s.rstrip('/')`. -/
def rstripSlash (s : String) : String :=
  ⟨(s.data.reverse.dropWhile (fun c => c == '/')).reverse⟩

/-- Python `s[:n]` (slice of the first `n` code points). -/
def pyTake (n : Nat) (s : String) : String := ⟨s.data.take n⟩

/-- Concatenation of a list of strings (Python `''.join`). -/
def concatS : List String → String
  | [] => ""
  | s :: rest => s ++ concatS rest

/-- Python `'\n\n'.join(parts)`. -/
def joinNN : List String → String
  | [] => ""
  | [s] => s
  | s :: rest => s ++ "\x0a\x0a" ++ joinNN rest

/-! ### UTC datetimes -/

/-- A `datetime` in UTC: calendar date plus an order-encoded time of
day (`tod = 0` at midnight, as produced by `strptime`). -/
structure PyDateTime where
  year : Nat
  month : Nat
  day : Nat
  tod : Nat
deriving DecidableEq

/-- Numeric sort key; on valid datetimes (`month ≤ 12`, `day ≤ 31`,
`tod < 86400000000` microseconds) it is order-isomorphic to Python's
lexicographic datetime comparison. -/
def dtKey (t : PyDateTime) : Nat :=
  ((t.year * 13 + t.month) * 32 + t.day) * 86400000000 + t.tod

/-- Python `a <= b` on UTC datetimes. -/
def pyLe (a b : PyDateTime) : Bool := decide (dtKey a ≤ dtKey b)

/-! ### Date Resolver (`parse_date`, lines 48-64)

`datetime.strptime(s, fmt)` compiles `fmt` to an anchored regular
expression (whitespace in the format becomes `\s+`, `%B`/`%b` become a
case-insensitive month-name alternation, `%d` becomes
`3[01]|[12]\d|0[1-9]|[1-9]`, `%m` becomes `1[0-2]|0[1-9]|[1-9]`, `%Y`
becomes four digits) that must match the whole input, and then builds
the `datetime`, which additionally rejects day numbers past the month
length and year 0.  The functions below implement exactly that. -/

def monthsFull : List (String × Nat) :=
  [("January", 1), ("February", 2), ("March", 3), ("April", 4),
   ("May", 5), ("June", 6), ("July", 7), ("August", 8),
   ("September", 9), ("October", 10), ("November", 11), ("December", 12)]

def monthsAbbr : List (String × Nat) :=
  [("Jan", 1), ("Feb", 2), ("Mar", 3), ("Apr", 4), ("May", 5), ("Jun", 6),
   ("Jul", 7), ("Aug", 8), ("Sep", 9), ("Oct", 10), ("Nov", 11), ("Dec", 12)]

/-- Case-insensitive prefix test (the strptime month regex carries
`re.IGNORECASE`). -/
def isPrefixOfCI : List Char → List Char → Bool
  | [], _ => true
  | _ :: _, [] => false
  | a :: as, b :: bs => (a.toLower == b.toLower) && isPrefixOfCI as bs

/-- Match one month name of `names` at the head of `cs`; no name is a
prefix of another, so the regex alternation is deterministic. -/
def matchMonthCI (names : List (String × Nat)) (cs : List Char) :
    Option (Nat × List Char) :=
  match names with
  | [] => none
  | (n, m) :: rest =>
    if isPrefixOfCI n.data cs then some (m, cs.drop n.length)
    else matchMonthCI rest cs

/-- `\s+`: at least one whitespace character, maximal munch (sound here
because whatever follows `\s+` in the formats is never whitespace). -/
def wsPlus : List Char → Option (List Char)
  | [] => none
  | c :: cs =>
    if c.isWhitespace then some (cs.dropWhile Char.isWhitespace) else none

def digitVal (c : Char) : Nat := c.toNat - 48

/-- Two-digit day as accepted by `3[01]|[12]\d|0[1-9]`. -/
def dayTwoOk (a b : Char) : Bool :=
  (a == '3' && (b == '0' || b == '1')) ||
  ((a == '1' || a == '2') && b.isDigit) ||
  (a == '0' && b.isDigit && !(b == '0'))

/-- Two-digit month as accepted by `1[0-2]|0[1-9]`. -/
def monthTwoOk (a b : Char) : Bool :=
  (a == '1' && (b == '0' || b == '1' || b == '2')) ||
  (a == '0' && b.isDigit && !(b == '0'))

/-- One-digit field `[1-9]`. -/
def oneDigitOk (a : Char) : Bool := a.isDigit && !(a == '0')

/-- `(TWO|ONE)sep`: greedy two-digit alternative first, backtracking to
the one-digit alternative if the separator does not follow. -/
def twoOrOneDigit (ok2 : Char → Char → Bool) (sep : Char) :
    List Char → Option (Nat × List Char)
  | a :: b :: c :: rest =>
    if ok2 a b && (c == sep) then some (10 * digitVal a + digitVal b, rest)
    else if oneDigitOk a && (b == sep) then some (digitVal a, c :: rest)
    else none
  | [a, b] =>
    if oneDigitOk a && (b == sep) then some (digitVal a, []) else none
  | _ => none

/-- `(TWO|ONE)$`: the field must end the input. -/
def twoOrOneDigitEnd (ok2 : Char → Char → Bool) : List Char → Option Nat
  | [a, b] => if ok2 a b then some (10 * digitVal a + digitVal b) else none
  | [a] => if oneDigitOk a then some (digitVal a) else none
  | _ => none

/-- `\d\d\d\d` (`%Y`). -/
def year4 : List Char → Option (Nat × List Char)
  | a :: b :: c :: d :: rest =>
    if a.isDigit && b.isDigit && c.isDigit && d.isDigit then
      some (1000 * digitVal a + 100 * digitVal b + 10 * digitVal c +
            digitVal d, rest)
    else none
  | _ => none

/-- Anchored match for `'%B %d, %Y'` / `'%b %d, %Y'` with the given
month-name table, yielding `(year, month, day)`. -/
def fmtMonthDY (names : List (String × Nat)) (cs : List Char) :
    Option (Nat × Nat × Nat) :=
  match matchMonthCI names cs with
  | none => none
  | some (m, r1) =>
    match wsPlus r1 with
    | none => none
    | some r2 =>
      match twoOrOneDigit dayTwoOk ',' r2 with
      | none => none
      | some (d, r3) =>
        match wsPlus r3 with
        | none => none
        | some r4 =>
          match year4 r4 with
          | some (y, []) => some (y, m, d)
          | _ => none

/-- Anchored match for `'%Y-%m-%d'`. -/
def fmtISO (cs : List Char) : Option (Nat × Nat × Nat) :=
  match year4 cs with
  | some (y, r1) =>
    match r1 with
    | '-' :: r2 =>
      match twoOrOneDigit monthTwoOk '-' r2 with
      | some (m, r3) =>
        match twoOrOneDigitEnd dayTwoOk r3 with
        | some d => some (y, m, d)
        | none => none
      | none => none
    | _ => none
  | none => none

def isLeap (y : Nat) : Bool :=
  y % 4 == 0 && (!(y % 100 == 0) || y % 400 == 0)

def daysInMonth (y m : Nat) : Nat :=
  if m == 2 then (if isLeap y then 29 else 28)
  else if m == 4 || m == 6 || m == 9 || m == 11 then 30
  else 31

/-- The `datetime(y, m, d)` constructor check that can still fail after
the format regex matched (year 0, day past the month length). -/
def validYMD (y m d : Nat) : Bool :=
  decide (1 ≤ y) && decide (d ≤ daysInMonth y m)

/-- One `strptime` attempt: regex match, then constructor validation;
a `ValueError` from either step is `none` (caught by the loop). -/
def strptimeFmt (f : List Char → Option (Nat × Nat × Nat))
    (cs : List Char) : Option PyDateTime :=
  match f cs with
  | some (y, m, d) => if validYMD y m d then some ⟨y, m, d, 0⟩ else none
  | none => none

/-- The format loop of `parse_date`: `'%B %d, %Y'`, then `'%b %d, %Y'`,
then `'%Y-%m-%d'`, first success wins. -/
def resolveFormats (t : List Char) : Option PyDateTime :=
  match strptimeFmt (fmtMonthDY monthsFull) t with
  | some dt => some dt
  | none =>
    match strptimeFmt (fmtMonthDY monthsAbbr) t with
    | some dt => some dt
    | none => strptimeFmt fmtISO t

/-- `parse_date` (lines 48-64): strip the input, try the three formats
in order, and fall back to the current time on exhaustion.  The result
of a successful parse carries `tzinfo=timezone.utc` at midnight. -/
def parse_date (now : PyDateTime) (date_str : String) : PyDateTime :=
  match resolveFormats (pyStrip date_str).data with
  | some dt => dt
  | none => now

/-- True exactly when `parse_date` logs "Could not parse date" and
falls back to the current time. -/
def date_warned (date_str : String) : Bool :=
  (resolveFormats (pyStrip date_str).data).isNone

/-! ### Ancestor date search (lines 211-232)

`re.search(r'(January|...|December)\s+\d{1,2},\s+\d{4}', parent_text)`:
scan left to right for the first position where the pattern matches;
the month alternation is case-sensitive here and `\d{1,2}` admits any
one or two digits.  `match.group(0)` is the matched substring. -/

/-- `\s+` returning the consumed run (needed for `group(0)`). -/
def wsTake (l : List Char) : Option (List Char × List Char) :=
  match l with
  | [] => none
  | c :: _ =>
    if c.isWhitespace then
      some (l.takeWhile Char.isWhitespace, l.dropWhile Char.isWhitespace)
    else none

/-- `\d{1,2},` with regex backtracking, returning the digit characters
and the remainder after the comma. -/
def searchDayComma : List Char → Option (List Char × List Char)
  | a :: b :: c :: rest =>
    if a.isDigit && b.isDigit && (c == ',') then some ([a, b], rest)
    else if a.isDigit && (b == ',') then some ([a], c :: rest)
    else none
  | [a, b] => if a.isDigit && (b == ',') then some ([a], []) else none
  | _ => none

/-- Try the date pattern anchored at the head of `cs`; return the
matched text. -/
def dateTokenAt (cs : List Char) : Option (List Char) :=
  match monthsFull.find? (fun nm => nm.1.data.isPrefixOf cs) with
  | none => none
  | some nm =>
    match wsTake (cs.drop nm.1.length) with
    | none => none
    | some (ws1, r2) =>
      match searchDayComma r2 with
      | none => none
      | some (dday, r3) =>
        match wsTake r3 with
        | none => none
        | some (ws2, r4) =>
          match r4 with
          | a :: b :: c :: d :: _ =>
            if a.isDigit && b.isDigit && c.isDigit && d.isDigit then
              some (nm.1.data ++ ws1 ++ dday ++ [','] ++ ws2 ++ [a, b, c, d])
            else none
          | _ => none

/-- Leftmost match of the date pattern (`re.search`). -/
def searchDate : List Char → Option (List Char)
  | [] => none
  | c :: cs =>
    match dateTokenAt (c :: cs) with
    | some m => some m
    | none => searchDate cs

def findDateInText (s : String) : Option String :=
  match searchDate s.data with
  | some m => some ⟨m⟩
  | none => none

/-- The bounded ancestor walk: the texts of `link.parent`,
`link.parent.parent`, ... are inspected in order, at most five levels,
stopping at the first text containing a date match. -/
def findDateGo : List String → Option String
  | [] => none
  | t :: ts =>
    match findDateInText t with
    | some m => some m
    | none => findDateGo ts

def findDateStr (ancestors : List String) : Option String :=
  findDateGo (ancestors.take 5)

/-! ### Listing Extractor (`extract_entries`, lines 147-247) -/

/-- One `<a href=...>` element as the code reads it: the `href`
attribute, `get_text(strip=True)`, and `get_text()` of each ancestor
(nearest first). -/
structure Link where
  href : String
  text : String
  ancestors : List String
deriving DecidableEq

/-- One discovered article entry (the dict built at lines 234-240). -/
structure Entry where
  title : String
  url : String
  date : PyDateTime
  date_str : String
  content : Option String
deriving DecidableEq

def base_url : String := "https://www.whitehouse.gov"

def listing_url : String := "https://www.whitehouse.gov/briefings-statements/"

def navWords : List String :=
  ["next", "previous", "older", "newer", "page", "»", "«"]

def breadcrumbTitles : List String :=
  ["briefings & statements", "briefings and statements",
   "briefings &amp; statements", "briefings&amp;statements"]

/-- URL normalization (lines 167-170): a root-relative href gets the
base origin prefixed; anything else is used verbatim. -/
def normUrl (href : String) : String :=
  if pyStartsWith href "/" then base_url ++ href else href

/-- Modelled from the spec: an absolute URL carries an explicit scheme
("normalize relative hrefs to absolute URLs using the site's base
origin", which is `https://www.whitehouse.gov`); the site's URLs use
http(s). -/
def isAbsoluteUrl (u : String) : Bool :=
  pyStartsWith u "https://" || pyStartsWith u "http://"

/-- The filter chain of the loop body (each failed conjunct is a
`continue` in the source, in source order):
href nonempty, listing segment present, not the archive page itself,
not already seen, no pagination segment, not the breadcrumb title,
title nonempty and at least 10 characters, no navigation word, and the
final double-check against the base page. -/
def keepLink (seen : List String) (l : Link) : Bool :=
  !(l.href == "") &&
  pyContains l.href "/briefings-statements/" &&
  !(rstripSlash (normUrl l.href) ==
      rstripSlash (base_url ++ "/briefings-statements")) &&
  !(seen.contains (normUrl l.href)) &&
  !(pyContains l.href "/page/") &&
  !(breadcrumbTitles.contains (pyStrip (pyLower l.text))) &&
  !((l.text == "") || decide (l.text.length < 10)) &&
  !(navWords.any (fun w => pyContains (pyLower l.text) w)) &&
  !([base_url ++ "/briefings-statements",
     base_url ++ "/briefings-statements/"].contains
      (rstripSlash (normUrl l.href)))

/-- The entry dict built for a surviving link (lines 234-240). -/
def toEntry (now : PyDateTime) (l : Link) : Entry :=
  match findDateStr l.ancestors with
  | some ds => ⟨l.text, normUrl l.href, parse_date now ds, ds, none⟩
  | none => ⟨l.text, normUrl l.href, now, "Unknown", none⟩

/-- The `for link in soup.find_all('a', href=True)` loop with its
`seen_urls` set (modelled as the list of recorded URLs). -/
def extractLoop (now : PyDateTime) (seen : List String) :
    List Link → List Entry
  | [] => []
  | l :: ls =>
    if keepLink seen l then
      toEntry now l :: extractLoop now (normUrl l.href :: seen) ls
    else extractLoop now seen ls

/-- The entry list in discovery order, before the final sort. -/
def extractCandidates (now : PyDateTime) (links : List Link) : List Entry :=
  extractLoop now [] links

/-- Stable insertion step of the descending-by-date sort: an element is
placed before the first earlier-or-equal date, so elements with equal
dates keep their original relative order. -/
def insertDesc (e : Entry) : List Entry → List Entry
  | [] => [e]
  | x :: xs => if pyLe x.date e.date then e :: x :: xs else x :: insertDesc e xs

/-- `entries.sort(key=lambda x: x['date'], reverse=True)`: Python's
sort is stable and `reverse=True` keeps equal keys in discovery order;
any stable descending sort (this one) computes the same list. -/
def sortByDateDesc : List Entry → List Entry
  | [] => []
  | x :: xs => insertDesc x (sortByDateDesc xs)

/-- `extract_entries` (lines 147-247). -/
def extract_entries (now : PyDateTime) (links : List Link) : List Entry :=
  sortByDateDesc (extractCandidates now links)

/-- Deduplication by URL keeping the first occurrence, written
directly from the specification's words ("first occurrence kept, later
occurrences with the same URL dropped silently"); used as the
reference implementation the loop is compared against. -/
def dedupFirstAux (seen : List String) : List Entry → List Entry
  | [] => []
  | e :: es =>
    if seen.contains e.url then dedupFirstAux seen es
    else e :: dedupFirstAux (e.url :: seen) es

def dedupByUrlFirst (es : List Entry) : List Entry := dedupFirstAux [] es

/-! ### Feed Assembler (`generate_rss`, lines 250-289)

The feedgen serializer is a black box per the specification; the
assembler is modelled as the structured item list handed to it (title,
link, guid with permalink flag, pubDate, description).  Channel-level
fields are fixed configuration and carry no entry data. -/

structure FeedItem where
  title : String
  link : String
  guid : String
  guidIsPermaLink : Bool
  pubDate : PyDateTime
  description : String
deriving DecidableEq

/-- The description branch (lines 276-285): a present, non-blank body
is stripped and truncated to 5000 characters with an appended `"..."`
when longer; otherwise the synthesized title-based line is used. -/
def feedDescription (e : Entry) : String :=
  match e.content with
  | some c =>
    if !(pyStrip c == "") then
      if decide (5000 < (pyStrip c).length) then
        pyTake 5000 (pyStrip c) ++ "..."
      else pyStrip c
    else "White House Briefing/Statement: " ++ e.title
  | none => "White House Briefing/Statement: " ++ e.title

def feedItemOf (e : Entry) : FeedItem :=
  ⟨e.title, e.url, e.url, true, e.date, feedDescription e⟩

def generate_rss (entries : List Entry) : List FeedItem :=
  entries.map feedItemOf

/-! ### Article Body Extractor (`extract_article_content`, lines 80-144)

An article page is a markup tree.  `get_text(strip=True)` joins the
stripped text descendants; `find_all` returns descendants in document
order; `decompose` removes a subtree.  The deletion of chrome elements
before the body fallback re-deletes anything the region branch already
deleted, so the fallback is equivalent to working on a fresh copy of
the body, which is how it is modelled.  The page fetch is the external
HTTP collaborator; its failure path yields the empty string at the
`except` boundary and is modelled in `World.body` for `main`. -/

inductive Node where
  | text (s : String)
  | elem (tag : String) (classes : List String) (role : Option String)
      (children : List Node)

def Node.tagOf : Node → Option String
  | .text _ => none
  | .elem t _ _ _ => some t

mutual
/-- All text descendants, in document order. -/
def nodeTexts : Node → List String
  | Node.text s => [s]
  | Node.elem _ _ _ cs => forestTexts cs
def forestTexts : List Node → List String
  | [] => []
  | n :: ns => nodeTexts n ++ forestTexts ns
end

/-- `get_text(strip=True)`: each text fragment stripped, concatenated. -/
def getTextStrip (n : Node) : String := concatS ((nodeTexts n).map pyStrip)

/-- `[n]` when `n` is an element, `[]` for a text node. -/
def elemSelf (n : Node) : List Node :=
  match n with
  | .text _ => []
  | .elem t c r cs => [Node.elem t c r cs]

mutual
/-- Strict element descendants of a node, in document order
(pre-order), as `find_all` enumerates them. -/
def descElemsOf : Node → List Node
  | Node.text _ => []
  | Node.elem _ _ _ cs => descElems cs
def descElems : List Node → List Node
  | [] => []
  | n :: ns => elemSelf n ++ descElemsOf n ++ descElems ns
end

def chromeTags : List String :=
  ["script", "style", "nav", "header", "footer", "aside"]

def isChrome (n : Node) : Bool :=
  match n with
  | .text _ => false
  | .elem t _ _ _ => chromeTags.contains t

mutual
/-- The chrome deletion before text extraction: every descendant
element with a chrome tag is removed with its subtree. -/
def stripChrome : Node → Node
  | Node.text s => Node.text s
  | Node.elem t c r cs => Node.elem t c r (stripChromeList cs)
def stripChromeList : List Node → List Node
  | [] => []
  | n :: ns =>
    if isChrome n then stripChromeList ns
    else stripChrome n :: stripChromeList ns
end

mutual
/-- First element (root included, as for `soup.find` /
`soup.select_one`) satisfying `p`, in document order. -/
def findFirst (p : Node → Bool) : Node → Option Node
  | Node.text _ => none
  | Node.elem t c r cs =>
    if p (Node.elem t c r cs) then some (Node.elem t c r cs)
    else findFirstL p cs
def findFirstL (p : Node → Bool) : List Node → Option Node
  | [] => none
  | n :: ns =>
    match findFirst p n with
    | some m => some m
    | none => findFirstL p ns
end

/-- The CSS selectors the code uses: a tag name, a class token, or an
attribute value test `[role="main"]`. -/
inductive Sel where
  | tagSel (t : String)
  | clsSel (c : String)
  | roleSel (r : String)

def selMatches (s : Sel) (n : Node) : Bool :=
  match n, s with
  | Node.elem t _ _ _, Sel.tagSel q => t == q
  | Node.elem _ cls _ _, Sel.clsSel q => cls.contains q
  | Node.elem _ _ r _, Sel.roleSel q => r == some q
  | Node.text _, _ => false

def content_selectors : List Sel :=
  [Sel.tagSel "article", Sel.clsSel "entry-content", Sel.clsSel "post-content",
   Sel.clsSel "content", Sel.tagSel "main", Sel.roleSel "main",
   Sel.clsSel "briefing-content", Sel.clsSel "statement-content"]

/-- The `for selector in content_selectors` loop: first selector with a
match wins. -/
def selectFirstSel : List Sel → Node → Option Node
  | [], _ => none
  | s :: rest, doc =>
    match findFirst (selMatches s) doc with
    | some n => some n
    | none => selectFirstSel rest doc

/-- `soup.find('div', class_=re.compile(r'content|entry|post', re.I))`:
a div one of whose class tokens contains one of the three words,
case-insensitively. -/
def divContentClass (n : Node) : Bool :=
  match n with
  | Node.elem t cls _ _ =>
    t == "div" && cls.any (fun c =>
      pyContains (pyLower c) "content" || pyContains (pyLower c) "entry" ||
      pyContains (pyLower c) "post")
  | _ => false

/-- Lines 99-110: the selector cascade, then
`soup.find('main') or soup.find('article') or soup.find('div', ...)`. -/
def chooseRegion (doc : Node) : Option Node :=
  match selectFirstSel content_selectors doc with
  | some n => some n
  | none =>
    match findFirst (fun n => n.tagOf == some "main") doc with
    | some n => some n
    | none =>
      match findFirst (fun n => n.tagOf == some "article") doc with
      | some n => some n
      | none => findFirst divContentClass doc

def tagIn (tags : List String) (n : Node) : Bool :=
  match n.tagOf with
  | some t => tags.contains t
  | none => false

/-- Strip chrome, collect the `get_text(strip=True)` of every
descendant with one of the given tags, keep the fragments that are
non-empty and longer than 20 characters. -/
def collectParts (tags : List String) (region : Node) : List String :=
  (((descElemsOf (stripChrome region)).filter (tagIn tags)).map
      getTextStrip).filter (fun t => !(t == "") && decide (20 < t.length))

/-- Lines 129-137: the last-resort retry against `soup.find('body')`,
which collects only `<p>` descendants. -/
def bodyFallbackText (doc : Node) : String :=
  match findFirst (fun n => n.tagOf == some "body") doc with
  | some b =>
    let parts := collectParts ["p"] b
    if parts.isEmpty then "" else joinNN parts
  | none => ""

/-- `extract_article_content` (lines 80-144), given the parsed page. -/
def extract_article_content (doc : Node) : String :=
  match chooseRegion doc with
  | some region =>
    let parts := collectParts ["p", "div"] region
    if parts.isEmpty then bodyFallbackText doc else joinNN parts
  | none => bodyFallbackText doc

/-- Modelled from the spec (claim C8's wording): the retry against the
whole document body repeats steps 3-4, i.e. collects text from
paragraph AND block-level container (`div`) elements. -/
def specRetryText (doc : Node) : String :=
  match findFirst (fun n => n.tagOf == some "body") doc with
  | some b =>
    let parts := collectParts ["p", "div"] b
    if parts.isEmpty then "" else joinNN parts
  | none => ""

/-! ### `main` (lines 292-324)

The run is a function of the external world: the listing fetch either
raises (`none`: network error or `raise_for_status`) or yields the
links of the listing page; each article URL resolves to the body text
`extract_article_content` would return for it (empty on any per-entry
failure).  The observable behavior is the sequence of per-entry
content fetches followed by the single file write, if any. -/

structure World where
  listing : Option (List Link)
  now : PyDateTime
  body : String → String

inductive Event where
  | fetchedArticle (url : String)
  | wroteFeed (items : List FeedItem)
deriving DecidableEq

/-- The enrichment loop (lines 306-312): every entry's content is
fetched, in listing order, before anything is written. -/
def enrichEntries (w : World) (es : List Entry) : List Entry :=
  es.map (fun e => { e with content := some (w.body e.url) })

/-- `main`: fetch failure propagates (no write); zero entries skips the
write; otherwise all bodies are fetched and then the feed is written. -/
def main (w : World) : List Event :=
  match w.listing with
  | none => []
  | some links =>
    let entries := extract_entries w.now links
    if entries.isEmpty then []
    else
      (entries.map (fun e => Event.fetchedArticle e.url)) ++
      [Event.wroteFeed (generate_rss (enrichEntries w entries))]

/-! ## Theorems -/

/-! ### String helper lemmas -/

theorem stringExt {a b : String} (h : a.data = b.data) : a = b := by
  cases a; cases b; exact congrArg String.mk h

theorem stringOfData (s : String) : (⟨s.data⟩ : String) = s := by
  cases s; rfl

theorem head?_dropWhile_not (p : Char → Bool) (l : List Char) (c : Char)
    (h : (l.dropWhile p).head? = some c) : p c = false := by
  induction l with
  | nil => simp at h
  | cons a as ih =>
    by_cases hp : p a
    · rw [List.dropWhile_cons_of_pos hp] at h; exact ih h
    · rw [List.dropWhile_cons_of_neg hp] at h
      simp at h
      subst h; simpa using hp

theorem head?_append_left (x y : List Char) (hx : x ≠ []) :
    (x ++ y).head? = x.head? := by
  cases x with
  | nil => exact absurd rfl hx
  | cons a as => rfl

theorem getLast?_suffix {l m : List Char} (h : l <:+ m) (hne : l ≠ []) :
    l.getLast? = m.getLast? := by
  obtain ⟨pre, rfl⟩ := h
  exact (List.getLast?_append_of_ne_nil pre hne).symm

theorem trimChars_head (l : List Char) (c : Char)
    (h : (trimChars l).head? = some c) : c.isWhitespace = false :=
  head?_dropWhile_not Char.isWhitespace (rtrimWs l) c h

theorem trimChars_last (l : List Char) (c : Char)
    (h : (trimChars l).getLast? = some c) : c.isWhitespace = false := by
  have hne : trimChars l ≠ [] := by
    intro he; rw [he] at h; simp at h
  have hsuf : trimChars l <:+ rtrimWs l := List.dropWhile_suffix _
  have h2 : (rtrimWs l).getLast? = some c := by
    rw [← getLast?_suffix hsuf hne]; exact h
  have h3 : (l.reverse.dropWhile Char.isWhitespace).head? = some c := by
    have := List.getLast?_reverse (l.reverse.dropWhile Char.isWhitespace)
    rw [← this]
    exact h2
  exact head?_dropWhile_not Char.isWhitespace l.reverse c h3

/-- A list is unchanged by trimming iff trimming does nothing at both
ends; this is the direction used to prove closure properties. -/
theorem trimChars_fixed_of (l : List Char)
    (h1 : ∀ c, l.head? = some c → c.isWhitespace = false)
    (h2 : ∀ c, l.getLast? = some c → c.isWhitespace = false) :
    trimChars l = l := by
  have hr : rtrimWs l = l := by
    unfold rtrimWs
    cases hrev : l.reverse with
    | nil =>
      have : l = [] := by
        have := congrArg List.reverse hrev
        simpa using this
      simp [this]
    | cons d ds =>
      have hd : l.getLast? = some d := by
        rw [← List.head?_reverse]; rw [hrev]; rfl
      have hw : Char.isWhitespace d = false := h2 d hd
      calc (List.dropWhile Char.isWhitespace (d :: ds)).reverse
          = (d :: ds).reverse := by
            rw [List.dropWhile_cons_of_neg (by simp [hw])]
        _ = l.reverse.reverse := by rw [hrev]
        _ = l := List.reverse_reverse l
  unfold trimChars
  rw [hr]
  cases hl : l with
  | nil => rfl
  | cons a as =>
    have ha : l.head? = some a := by rw [hl]; rfl
    have : Char.isWhitespace a = false := h1 a ha
    rw [List.dropWhile_cons_of_neg (by simp [this])]

theorem fixed_head {l : List Char} (hfix : trimChars l = l) (c : Char)
    (h : l.head? = some c) : c.isWhitespace = false := by
  apply trimChars_head l
  rw [hfix]; exact h

theorem fixed_last {l : List Char} (hfix : trimChars l = l) (c : Char)
    (h : l.getLast? = some c) : c.isWhitespace = false := by
  apply trimChars_last l
  rw [hfix]; exact h

theorem trimChars_idem (l : List Char) :
    trimChars (trimChars l) = trimChars l :=
  trimChars_fixed_of _ (trimChars_head l) (trimChars_last l)

theorem pyStrip_data (s : String) : (pyStrip s).data = trimChars s.data := rfl

theorem pyStrip_idem (s : String) : pyStrip (pyStrip s) = pyStrip s :=
  stringExt (by rw [pyStrip_data, pyStrip_data, trimChars_idem])

theorem pyStrip_eq_self_of_data {s : String}
    (h : trimChars s.data = s.data) : pyStrip s = s := by
  apply stringExt
  rw [pyStrip_data, h]

theorem data_of_pyStrip_eq_self {s : String} (h : pyStrip s = s) :
    trimChars s.data = s.data := by
  rw [← pyStrip_data, h]

theorem trimChars_append_fixed (x y : List Char)
    (hx : trimChars x = x) (hy : trimChars y = y) :
    trimChars (x ++ y) = x ++ y := by
  by_cases hxe : x = []
  · subst hxe; simpa using hy
  by_cases hye : y = []
  · subst hye; simpa using hx
  apply trimChars_fixed_of
  · intro c hc
    rw [head?_append_left _ _ hxe] at hc
    exact fixed_head hx c hc
  · intro c hc
    rw [List.getLast?_append_of_ne_nil _ hye] at hc
    exact fixed_last hy c hc

theorem pyStrip_append {a b : String} (ha : pyStrip a = a)
    (hb : pyStrip b = b) : pyStrip (a ++ b) = a ++ b := by
  apply pyStrip_eq_self_of_data
  rw [String.data_append]
  exact trimChars_append_fixed _ _ (data_of_pyStrip_eq_self ha)
    (data_of_pyStrip_eq_self hb)

theorem concatS_fixed (L : List String) (h : ∀ s ∈ L, pyStrip s = s) :
    pyStrip (concatS L) = concatS L := by
  induction L with
  | nil => rfl
  | cons s rest ih =>
    show pyStrip (s ++ concatS rest) = s ++ concatS rest
    exact pyStrip_append (h s (by simp))
      (ih (fun t ht => h t (by simp [ht])))

theorem getTextStrip_fixed (n : Node) :
    pyStrip (getTextStrip n) = getTextStrip n := by
  unfold getTextStrip
  apply concatS_fixed
  intro s hs
  obtain ⟨u, _, rfl⟩ := List.mem_map.mp hs
  exact pyStrip_idem u

theorem string_ne_empty_of_data {s : String} (h : s.data ≠ []) : s ≠ "" := by
  intro he
  exact h (by rw [he])

theorem string_data_ne_nil {s : String} (h : s ≠ "") : s.data ≠ [] := by
  intro he
  exact h (stringExt (by rw [he]))

theorem joinNN_ne_empty (parts : List String) (hp : parts ≠ [])
    (hne : ∀ p ∈ parts, p ≠ "") : joinNN parts ≠ "" := by
  cases parts with
  | nil => exact absurd rfl hp
  | cons s rest =>
    cases rest with
    | nil => exact hne s (by simp)
    | cons r rs =>
      show s ++ "\x0a\x0a" ++ joinNN (r :: rs) ≠ ""
      apply string_ne_empty_of_data
      rw [String.data_append, String.data_append]
      have : s.data ≠ [] := string_data_ne_nil (hne s (by simp))
      simp [this]

theorem joinNN_fixed (parts : List String)
    (h : ∀ p ∈ parts, ¬(p = "") ∧ pyStrip p = p) :
    pyStrip (joinNN parts) = joinNN parts := by
  induction parts with
  | nil => rfl
  | cons s rest ih =>
    cases rest with
    | nil => exact (h s (by simp)).2
    | cons r rs =>
      show pyStrip (s ++ "\x0a\x0a" ++ joinNN (r :: rs))
        = s ++ "\x0a\x0a" ++ joinNN (r :: rs)
      have hrest : pyStrip (joinNN (r :: rs)) = joinNN (r :: rs) :=
        ih (fun p hp => h p (by simp [hp]))
      have hrne : joinNN (r :: rs) ≠ "" :=
        joinNN_ne_empty _ (by simp) (fun p hp => (h p (by simp [hp])).1)
      have hsne : s ≠ "" := (h s (by simp)).1
      have hsfix : pyStrip s = s := (h s (by simp)).2
      apply pyStrip_eq_self_of_data
      rw [String.data_append, String.data_append]
      apply trimChars_fixed_of
      · intro c hc
        rw [List.append_assoc, head?_append_left _ _
          (string_data_ne_nil hsne)] at hc
        exact fixed_head (data_of_pyStrip_eq_self hsfix) c hc
      · intro c hc
        rw [List.getLast?_append_of_ne_nil _
          (string_data_ne_nil hrne)] at hc
        exact fixed_last (data_of_pyStrip_eq_self hrest) c hc

theorem collectParts_mem (tags : List String) (n : Node) :
    ∀ t ∈ collectParts tags n, ¬(t = "") ∧ pyStrip t = t := by
  intro t ht
  unfold collectParts at ht
  have hf := List.mem_filter.mp ht
  obtain ⟨hmem, hcond⟩ := hf
  constructor
  · intro he
    subst he
    simp at hcond
  · obtain ⟨u, _, rfl⟩ := List.mem_map.mp hmem
    exact getTextStrip_fixed u

theorem bodyFallbackText_fixed (doc : Node) :
    pyStrip (bodyFallbackText doc) = bodyFallbackText doc := by
  unfold bodyFallbackText
  cases findFirst (fun n => n.tagOf == some "body") doc with
  | none => rfl
  | some b =>
    simp only
    by_cases hp : (collectParts ["p"] b).isEmpty
    · simp only [hp, if_pos]
      decide
    · simp [hp]
      exact joinNN_fixed _ (collectParts_mem _ _)

/-- Every string `extract_article_content` can return is unchanged by
`strip()`: the bodies the pipeline stores are always strip-fixed. -/
theorem extract_article_content_fixed (doc : Node) :
    pyStrip (extract_article_content doc) = extract_article_content doc := by
  unfold extract_article_content
  cases chooseRegion doc with
  | none => exact bodyFallbackText_fixed doc
  | some region =>
    simp only
    by_cases hp : (collectParts ["p", "div"] region).isEmpty
    · simp [hp]
      exact bodyFallbackText_fixed doc
    · simp [hp]
      exact joinNN_fixed _ (collectParts_mem _ _)

/-! ### Listing-extractor lemmas -/

theorem toEntry_url (now : PyDateTime) (l : Link) :
    (toEntry now l).url = normUrl l.href := by
  unfold toEntry
  cases findDateStr l.ancestors <;> rfl

theorem toEntry_title (now : PyDateTime) (l : Link) :
    (toEntry now l).title = l.text := by
  unfold toEntry
  cases findDateStr l.ancestors <;> rfl

/-- The `seen_urls` test is the only part of the filter chain that
depends on the loop state; the other conjuncts commute with it. -/
theorem keepLink_seen (seen : List String) (l : Link) :
    keepLink seen l
      = (keepLink [] l && !(seen.contains (normUrl l.href))) := by
  unfold keepLink
  rw [show (([] : List String).contains (normUrl l.href)) = false from rfl]
  generalize (!(l.href == "")) = a
  generalize pyContains l.href "/briefings-statements/" = b
  generalize (!(rstripSlash (normUrl l.href) ==
      rstripSlash (base_url ++ "/briefings-statements"))) = c
  generalize seen.contains (normUrl l.href) = s
  generalize (!(pyContains l.href "/page/")) = d
  generalize (!(breadcrumbTitles.contains (pyStrip (pyLower l.text)))) = f
  generalize (!((l.text == "") || decide (l.text.length < 10))) = g
  generalize (!(navWords.any fun w => pyContains (pyLower l.text) w)) = h
  generalize (!([base_url ++ "/briefings-statements",
      base_url ++ "/briefings-statements/"].contains
        (rstripSlash (normUrl l.href)))) = i
  revert a b c s d f g h i
  decide

/-- The extraction loop is filtering by the pure conjuncts followed by
first-occurrence URL deduplication. -/
theorem extractLoop_eq (now : PyDateTime) (ls : List Link) :
    ∀ seen, extractLoop now seen ls
      = dedupFirstAux seen
          ((ls.filter (fun l => keepLink [] l)).map (toEntry now)) := by
  induction ls with
  | nil => intro seen; rfl
  | cons l ls ih =>
    intro seen
    by_cases hk : keepLink [] l = true
    · by_cases hs : seen.contains (normUrl l.href) = true
      · have hkeep : keepLink seen l = false := by
          rw [keepLink_seen, hk, hs]; rfl
        rw [show extractLoop now seen (l :: ls)
            = if keepLink seen l then toEntry now l ::
                extractLoop now (normUrl l.href :: seen) ls
              else extractLoop now seen ls from rfl]
        rw [hkeep]
        simp only [List.filter_cons, hk, if_true, List.map_cons]
        rw [show dedupFirstAux seen (toEntry now l ::
              (ls.filter (fun l2 => keepLink [] l2)).map (toEntry now))
            = if seen.contains (toEntry now l).url then
                dedupFirstAux seen
                  ((ls.filter (fun l2 => keepLink [] l2)).map (toEntry now))
              else toEntry now l :: dedupFirstAux ((toEntry now l).url :: seen)
                  ((ls.filter (fun l2 => keepLink [] l2)).map (toEntry now))
            from rfl]
        rw [toEntry_url, hs]
        simp only [if_true]
        exact ih seen
      · have hs2 : seen.contains (normUrl l.href) = false := by
          cases hq : seen.contains (normUrl l.href)
          · rfl
          · exact absurd hq hs
        have hkeep : keepLink seen l = true := by
          rw [keepLink_seen, hk, hs2]; rfl
        rw [show extractLoop now seen (l :: ls)
            = if keepLink seen l then toEntry now l ::
                extractLoop now (normUrl l.href :: seen) ls
              else extractLoop now seen ls from rfl]
        rw [hkeep]
        simp only [if_true]
        simp only [List.filter_cons, hk, if_true, List.map_cons]
        rw [show dedupFirstAux seen (toEntry now l ::
              (ls.filter (fun l2 => keepLink [] l2)).map (toEntry now))
            = if seen.contains (toEntry now l).url then
                dedupFirstAux seen
                  ((ls.filter (fun l2 => keepLink [] l2)).map (toEntry now))
              else toEntry now l :: dedupFirstAux ((toEntry now l).url :: seen)
                  ((ls.filter (fun l2 => keepLink [] l2)).map (toEntry now))
            from rfl]
        rw [toEntry_url, hs2]
        simp only [if_false, Bool.false_eq_true]
        exact congrArg _ (ih (normUrl l.href :: seen))
    · have hk2 : keepLink [] l = false := by
        cases hq : keepLink [] l
        · rfl
        · exact absurd hq hk
      have hkeep : keepLink seen l = false := by
        rw [keepLink_seen, hk2]; rfl
      rw [show extractLoop now seen (l :: ls)
          = if keepLink seen l then toEntry now l ::
              extractLoop now (normUrl l.href :: seen) ls
            else extractLoop now seen ls from rfl]
      rw [hkeep]
      simp only [if_false, Bool.false_eq_true]
      simp only [List.filter_cons, hk2]
      exact ih seen

theorem dedupFirstAux_subset (es : List Entry) :
    ∀ seen e, e ∈ dedupFirstAux seen es → e ∈ es := by
  induction es with
  | nil => intro seen e h; exact absurd h (by simp [dedupFirstAux])
  | cons x xs ih =>
    intro seen e h
    by_cases hs : seen.contains x.url = true
    · simp only [dedupFirstAux, hs, if_true] at h
      exact List.mem_cons_of_mem x (ih seen e h)
    · simp only [dedupFirstAux, hs, if_false] at h
      rcases List.mem_cons.mp h with h1 | h2
      · exact h1 ▸ List.mem_cons_self x xs
      · exact List.mem_cons_of_mem x (ih (x.url :: seen) e h2)

theorem dedupFirstAux_nodup (es : List Entry) :
    ∀ seen, ((dedupFirstAux seen es).map (fun e => e.url)).Nodup ∧
      ∀ u ∈ (dedupFirstAux seen es).map (fun e => e.url),
        seen.contains u = false := by
  induction es with
  | nil => intro seen; exact ⟨by simp [dedupFirstAux], by simp [dedupFirstAux]⟩
  | cons x xs ih =>
    intro seen
    by_cases hs : seen.contains x.url = true
    · simp only [dedupFirstAux, hs, if_true]
      exact ih seen
    · have hs2 : seen.contains x.url = false := by
        cases hq : seen.contains x.url
        · rfl
        · exact absurd hq hs
      simp only [dedupFirstAux, hs, if_false, List.map_cons]
      obtain ⟨ihn, ihs⟩ := ih (x.url :: seen)
      refine ⟨List.nodup_cons.mpr ⟨?_, ihn⟩, ?_⟩
      · intro hmem
        have := ihs x.url hmem
        simp [List.contains_cons] at this
      · intro u hu
        rcases List.mem_cons.mp hu with h1 | h2
        · exact h1 ▸ hs2
        · have := ihs u h2
          simp only [List.contains_cons, Bool.or_eq_false_iff] at this
          exact this.2

theorem dedupFirstAux_mem_first (e : Entry) (bs : List Entry) :
    ∀ (as : List Entry) (seen : List String),
      (∀ e2 ∈ as, ¬(e2.url = e.url)) → seen.contains e.url = false →
      e ∈ dedupFirstAux seen (as ++ e :: bs) := by
  intro as
  induction as with
  | nil =>
    intro seen _ hseen
    simp only [List.nil_append, dedupFirstAux, hseen, if_false,
      Bool.false_eq_true]
    exact List.mem_cons_self e _
  | cons a as ih =>
    intro seen hne hseen
    rw [List.cons_append]
    by_cases hs : seen.contains a.url = true
    · simp only [dedupFirstAux, hs, if_true]
      exact ih seen (fun e2 he2 => hne e2 (List.mem_cons_of_mem a he2)) hseen
    · simp only [dedupFirstAux, hs, if_false]
      apply List.mem_cons_of_mem
      apply ih (a.url :: seen) (fun e2 he2 => hne e2 (List.mem_cons_of_mem a he2))
      have hna : ¬(a.url = e.url) := hne a (List.mem_cons_self a as)
      simp only [List.contains_cons, Bool.or_eq_false_iff]
      constructor
      · simp only [beq_eq_false_iff_ne, ne_eq]
        intro hq
        exact hna hq.symm
      · exact hseen

/-! ### Sort lemmas: the stable descending insertion sort -/

theorem pyLe_total (a b : PyDateTime) :
    pyLe a b = true ∨ pyLe b a = true := by
  unfold pyLe
  rcases Nat.le_total (dtKey a) (dtKey b) with h | h
  · left; simpa using h
  · right; simpa using h

theorem pyLe_trans {a b c : PyDateTime} (h1 : pyLe a b = true)
    (h2 : pyLe b c = true) : pyLe a c = true := by
  unfold pyLe at h1 h2 ⊢
  simp only [decide_eq_true_eq] at h1 h2 ⊢
  exact Nat.le_trans h1 h2

theorem pyLe_false_ne {a b : PyDateTime} (h : pyLe a b = false) : ¬(a = b) := by
  intro he
  subst he
  unfold pyLe at h
  simp at h

theorem pyLe_false_true {a b : PyDateTime} (h : pyLe a b = false) :
    pyLe b a = true := by
  rcases pyLe_total a b with h1 | h1
  · exact absurd h1 (by rw [h]; simp)
  · exact h1

theorem mem_insertDesc (e : Entry) (l : List Entry) (x : Entry) :
    x ∈ insertDesc e l ↔ x = e ∨ x ∈ l := by
  induction l with
  | nil => simp [insertDesc]
  | cons y ys ih =>
    by_cases hle : pyLe y.date e.date = true
    · simp [insertDesc, hle]
    · simp only [insertDesc, hle, if_false, Bool.false_eq_true,
        List.mem_cons, ih]
      tauto

theorem insertDesc_perm (e : Entry) (l : List Entry) :
    List.Perm (insertDesc e l) (e :: l) := by
  induction l with
  | nil => exact List.Perm.refl _
  | cons y ys ih =>
    by_cases hle : pyLe y.date e.date = true
    · simp only [insertDesc, hle, if_true]
      exact List.Perm.refl _
    · simp only [insertDesc, hle, if_false, Bool.false_eq_true]
      exact (ih.cons y).trans (List.Perm.swap e y ys)

theorem sortByDateDesc_perm (l : List Entry) :
    List.Perm (sortByDateDesc l) l := by
  induction l with
  | nil => exact List.Perm.refl _
  | cons x xs ih =>
    exact (insertDesc_perm x (sortByDateDesc xs)).trans (ih.cons x)

theorem pairwise_insertDesc (e : Entry) (l : List Entry)
    (h : l.Pairwise (fun a b => pyLe b.date a.date = true)) :
    (insertDesc e l).Pairwise (fun a b => pyLe b.date a.date = true) := by
  induction l with
  | nil => simp [insertDesc]
  | cons x xs ih =>
    obtain ⟨h1, h2⟩ := List.pairwise_cons.mp h
    by_cases hle : pyLe x.date e.date = true
    · simp only [insertDesc, hle, if_true]
      refine List.pairwise_cons.mpr ⟨?_, h⟩
      intro y hy
      rcases List.mem_cons.mp hy with rfl | hy2
      · exact hle
      · exact pyLe_trans (h1 y hy2) hle
    · have hxf : pyLe x.date e.date = false := by
        cases hq : pyLe x.date e.date
        · rfl
        · exact absurd hq hle
      simp only [insertDesc, hle, if_false, Bool.false_eq_true]
      refine List.pairwise_cons.mpr ⟨?_, ih h2⟩
      intro y hy
      rcases (mem_insertDesc e xs y).mp hy with rfl | hy2
      · exact pyLe_false_true hxf
      · exact h1 y hy2

theorem sorted_sortByDateDesc (l : List Entry) :
    (sortByDateDesc l).Pairwise (fun a b => pyLe b.date a.date = true) := by
  induction l with
  | nil => simp [sortByDateDesc]
  | cons x xs ih => exact pairwise_insertDesc x (sortByDateDesc xs) ih

theorem filter_insertDesc (e : Entry) (l : List Entry) (d : PyDateTime) :
    (insertDesc e l).filter (fun x => decide (x.date = d))
      = if e.date = d then
          e :: l.filter (fun x => decide (x.date = d))
        else l.filter (fun x => decide (x.date = d)) := by
  induction l with
  | nil =>
    by_cases he : e.date = d
    · simp [insertDesc, List.filter_cons, he]
    · simp [insertDesc, List.filter_cons, he]
  | cons x xs ih =>
    by_cases hle : pyLe x.date e.date = true
    · rw [show insertDesc e (x :: xs) = e :: x :: xs by
        simp [insertDesc, hle]]
      by_cases he : e.date = d
      · simp [List.filter_cons, he]
      · simp [List.filter_cons, he]
    · have hxf : pyLe x.date e.date = false := by
        cases hq : pyLe x.date e.date
        · rfl
        · exact absurd hq hle
      have hxde : ¬(x.date = e.date) := pyLe_false_ne hxf
      rw [show insertDesc e (x :: xs) = x :: insertDesc e xs by
        simp [insertDesc, hxf]]
      rw [List.filter_cons, List.filter_cons, ih]
      by_cases he : e.date = d
      · have hxd : ¬(x.date = d) := fun hq => hxde (hq.trans he.symm)
        simp [he, hxd]
      · by_cases hx : x.date = d
        · simp [hx, he]
        · simp [hx, he]

theorem filter_sortByDateDesc (l : List Entry) (d : PyDateTime) :
    (sortByDateDesc l).filter (fun x => decide (x.date = d))
      = l.filter (fun x => decide (x.date = d)) := by
  induction l with
  | nil => rfl
  | cons x xs ih =>
    show (insertDesc x (sortByDateDesc xs)).filter _ = _
    rw [filter_insertDesc]
    by_cases hx : x.date = d
    · simp only [hx, if_true, ih, List.filter_cons]
      simp
    · simp only [hx, if_false, ih, List.filter_cons]
      simp [hx]

/-- Every entry of the output originates from an input hyperlink that
passes every pure filter. -/
theorem mem_extract_entries {now : PyDateTime} {links : List Link} {e : Entry}
    (h : e ∈ extract_entries now links) :
    ∃ l, l ∈ links ∧ keepLink [] l = true ∧ e = toEntry now l := by
  unfold extract_entries at h
  have h2 : e ∈ extractCandidates now links :=
    (sortByDateDesc_perm _).mem_iff.mp h
  unfold extractCandidates at h2
  rw [extractLoop_eq] at h2
  have h3 := dedupFirstAux_subset _ _ _ h2
  obtain ⟨l, hl, rfl⟩ := List.mem_map.mp h3
  have hl2 := List.mem_filter.mp hl
  exact ⟨l, hl2.1, hl2.2, rfl⟩

/-- C1: no two output entries share a URL, and the candidate list is
exactly the spec's dedup-by-absolute-URL of the hyperlinks that pass
the filters: among the kept (filter-passing) hyperlinks, the first
occurrence of each URL is kept and later occurrences with the same URL
are dropped silently. -/
theorem C1_unique_urls (now : PyDateTime) (links : List Link) :
    ((extract_entries now links).map (fun e => e.url)).Nodup ∧
    extractCandidates now links
      = dedupByUrlFirst
          ((links.filter (fun l => keepLink [] l)).map (toEntry now)) := by
  constructor
  · have hperm : List.Perm ((extract_entries now links).map (fun e => e.url))
        ((extractCandidates now links).map (fun e => e.url)) :=
      (sortByDateDesc_perm _).map _
    rw [hperm.nodup_iff]
    unfold extractCandidates
    rw [extractLoop_eq]
    exact (dedupFirstAux_nodup _ _).1
  · unfold extractCandidates dedupByUrlFirst
    exact extractLoop_eq now links []

/-- C2: the output is sorted by resolved date descending (every later
entry's date is `<=` every earlier entry's date), and the sort is
stable: for each date value, the output entries carrying it appear in
exactly their discovery order (the order of `extractCandidates`). -/
theorem C2_sorted_descending_stable (now : PyDateTime) (links : List Link) :
    (extract_entries now links).Pairwise
      (fun a b => pyLe b.date a.date = true) ∧
    ∀ d, (extract_entries now links).filter (fun e => decide (e.date = d))
      = (extractCandidates now links).filter (fun e => decide (e.date = d)) :=
  ⟨sorted_sortByDateDesc _, fun d => filter_sortByDateDesc _ d⟩

theorem containsSeq_append (pat x y : List Char)
    (h : containsSeq pat y = true) : containsSeq pat (x ++ y) = true := by
  induction x with
  | nil => simpa using h
  | cons c cs ih =>
    show (pat.isPrefixOf (c :: (cs ++ y)) || containsSeq pat (cs ++ y)) = true
    rw [ih]
    simp

/-- Substring containment survives URL normalization (prefixing the
base origin). -/
theorem pyContains_normUrl {href : String} (pat : String)
    (h : pyContains href pat = true) :
    pyContains (normUrl href) pat = true := by
  unfold normUrl
  by_cases hs : pyStartsWith href "/" = true
  · rw [if_pos hs]
    unfold pyContains at h ⊢
    rw [String.data_append]
    exact containsSeq_append _ _ _ h
  · rw [if_neg hs]
    exact h

/-- C4: every emitted entry's URL contains the listing path segment
`/briefings-statements/` and differs (ignoring trailing slashes) from
the listing page's own URL, and the source href it was built from
contains no pagination marker `/page/`. -/
theorem C4_url_filters (now : PyDateTime) (links : List Link) (e : Entry)
    (h : e ∈ extract_entries now links) :
    pyContains e.url "/briefings-statements/" = true ∧
    ¬(rstripSlash e.url = rstripSlash listing_url) ∧
    ∃ l, l ∈ links ∧ e = toEntry now l ∧
      pyContains l.href "/page/" = false := by
  obtain ⟨l, hl, hk, rfl⟩ := mem_extract_entries h
  rw [keepLink] at hk
  simp only [Bool.and_eq_true] at hk
  obtain ⟨⟨⟨⟨⟨⟨⟨⟨hA, hB⟩, hC⟩, hD⟩, hE⟩, hF⟩, hG⟩, hH⟩, hI⟩ := hk
  refine ⟨?_, ?_, l, hl, rfl, ?_⟩
  · rw [toEntry_url]
    exact pyContains_normUrl _ hB
  · rw [toEntry_url]
    have hlist : rstripSlash listing_url
        = rstripSlash (base_url ++ "/briefings-statements") := by decide
    rw [hlist]
    rw [Bool.not_eq_true', beq_eq_false_iff_ne] at hC
    exact hC
  · rw [Bool.not_eq_true'] at hE
    exact hE

/-- Witness for C4: a concrete listing link survives extraction and
satisfies all three URL conditions. -/
theorem C4_url_filters_witness :
    pyContains (toEntry ⟨2025, 12, 1, 0⟩
        ⟨"/briefings-statements/press-briefing-x/",
         "Press Briefing by the Secretary",
         ["container November 14, 2025 tail"]⟩).url
      "/briefings-statements/" = true ∧
    ¬(rstripSlash (toEntry ⟨2025, 12, 1, 0⟩
        ⟨"/briefings-statements/press-briefing-x/",
         "Press Briefing by the Secretary",
         ["container November 14, 2025 tail"]⟩).url
      = rstripSlash listing_url) ∧
    ∃ l, l ∈ [(⟨"/briefings-statements/press-briefing-x/",
         "Press Briefing by the Secretary",
         ["container November 14, 2025 tail"]⟩ : Link)] ∧
      toEntry ⟨2025, 12, 1, 0⟩
        ⟨"/briefings-statements/press-briefing-x/",
         "Press Briefing by the Secretary",
         ["container November 14, 2025 tail"]⟩ = toEntry ⟨2025, 12, 1, 0⟩ l ∧
      pyContains l.href "/page/" = false :=
  C4_url_filters ⟨2025, 12, 1, 0⟩
    [⟨"/briefings-statements/press-briefing-x/",
      "Press Briefing by the Secretary",
      ["container November 14, 2025 tail"]⟩] _ (by decide)

/-- C5: every emitted entry's title has at least 10 characters, is not
(case-insensitively, after stripping) one of the channel's own
display-name variants, and contains none of the navigation words as a
case-insensitive substring. -/
theorem C5_title_filters (now : PyDateTime) (links : List Link) (e : Entry)
    (h : e ∈ extract_entries now links) :
    10 ≤ e.title.length ∧
    breadcrumbTitles.contains (pyStrip (pyLower e.title)) = false ∧
    ∀ w ∈ navWords, pyContains (pyLower e.title) w = false := by
  obtain ⟨l, hl, hk, rfl⟩ := mem_extract_entries h
  rw [keepLink] at hk
  simp only [Bool.and_eq_true] at hk
  obtain ⟨⟨⟨⟨⟨⟨⟨⟨hA, hB⟩, hC⟩, hD⟩, hE⟩, hF⟩, hG⟩, hH⟩, hI⟩ := hk
  rw [toEntry_title]
  refine ⟨?_, ?_, ?_⟩
  · rw [Bool.not_eq_true', Bool.or_eq_false_iff] at hG
    have h10 := hG.2
    simp only [decide_eq_false_iff_not, Nat.not_lt] at h10
    exact h10
  · rw [Bool.not_eq_true'] at hF
    exact hF
  · intro w hw
    rw [Bool.not_eq_true'] at hH
    rw [List.any_eq_false] at hH
    have := hH w hw
    cases hq : pyContains (pyLower l.text) w
    · rfl
    · exact absurd hq this

/-- Witness for C5: the concrete surviving title satisfies all three
title conditions. -/
theorem C5_title_filters_witness :
    10 ≤ (toEntry ⟨2025, 12, 1, 0⟩
        ⟨"/briefings-statements/remarks-by-the-president/",
         "Remarks by the President on Trade", []⟩).title.length ∧
    breadcrumbTitles.contains (pyStrip (pyLower (toEntry ⟨2025, 12, 1, 0⟩
        ⟨"/briefings-statements/remarks-by-the-president/",
         "Remarks by the President on Trade", []⟩).title)) = false ∧
    ∀ w ∈ navWords, pyContains (pyLower (toEntry ⟨2025, 12, 1, 0⟩
        ⟨"/briefings-statements/remarks-by-the-president/",
         "Remarks by the President on Trade", []⟩).title) w = false :=
  C5_title_filters ⟨2025, 12, 1, 0⟩
    [⟨"/briefings-statements/remarks-by-the-president/",
      "Remarks by the President on Trade", []⟩] _ (by decide)

theorem isPrefixOf_append_right {p a : List Char}
    (h : p.isPrefixOf a = true) (b : List Char) :
    p.isPrefixOf (a ++ b) = true := by
  rw [List.isPrefixOf_iff_prefix] at h ⊢
  exact h.trans (List.prefix_append a b)

/-- Counterexample to C9 as stated: a kept hyperlink whose relative
href does not start with `/` (here `articles/briefings-statements/...`)
is emitted verbatim, so its entry's url field is not an absolute URL. -/
theorem C9_counterexample :
    (extract_entries ⟨2025, 6, 1, 0⟩
        [⟨"articles/briefings-statements/some-story-slug/",
          "A Perfectly Reasonable Headline", []⟩]).map (fun e => e.url)
      = ["articles/briefings-statements/some-story-slug/"] ∧
    isAbsoluteUrl "articles/briefings-statements/some-story-slug/"
      = false := by
  constructor
  · decide
  · decide

/-- C9 (amended): only root-relative hrefs (those starting with `/`)
are normalized to absolute URLs by prefixing the site's base origin;
any other kept href is emitted verbatim, so an emitted entry's url is
absolute exactly when its source href was root-relative or already
carried a scheme. -/
theorem C9_normalization (now : PyDateTime) (links : List Link) (e : Entry)
    (h : e ∈ extract_entries now links) :
    ∃ l, l ∈ links ∧ e = toEntry now l ∧
      (pyStartsWith l.href "/" = true →
        e.url = base_url ++ l.href ∧ isAbsoluteUrl e.url = true) ∧
      (pyStartsWith l.href "/" = false → e.url = l.href) := by
  obtain ⟨l, hl, hk, rfl⟩ := mem_extract_entries h
  refine ⟨l, hl, rfl, ?_, ?_⟩
  · intro hs
    have hu : (toEntry now l).url = base_url ++ l.href := by
      rw [toEntry_url]
      unfold normUrl
      rw [if_pos hs]
    refine ⟨hu, ?_⟩
    rw [hu]
    unfold isAbsoluteUrl
    have habs : pyStartsWith (base_url ++ l.href) "https://" = true := by
      unfold pyStartsWith
      rw [String.data_append]
      exact isPrefixOf_append_right (by decide) _
    rw [habs]
    rfl
  · intro hs
    rw [toEntry_url]
    unfold normUrl
    rw [if_neg (by rw [hs]; exact Bool.false_ne_true)]

/-- Witness for the amended C9: a root-relative href is prefixed with
the base origin and yields an absolute URL. -/
theorem C9_normalization_witness :
    ∃ l, l ∈ [(⟨"/briefings-statements/article-one/",
        "Article One Headline Text", []⟩ : Link)] ∧
      toEntry ⟨2025, 6, 1, 0⟩ ⟨"/briefings-statements/article-one/",
        "Article One Headline Text", []⟩ = toEntry ⟨2025, 6, 1, 0⟩ l ∧
      (pyStartsWith l.href "/" = true →
        (toEntry ⟨2025, 6, 1, 0⟩ ⟨"/briefings-statements/article-one/",
          "Article One Headline Text", []⟩).url = base_url ++ l.href ∧
        isAbsoluteUrl (toEntry ⟨2025, 6, 1, 0⟩
          ⟨"/briefings-statements/article-one/",
           "Article One Headline Text", []⟩).url = true) ∧
      (pyStartsWith l.href "/" = false →
        (toEntry ⟨2025, 6, 1, 0⟩ ⟨"/briefings-statements/article-one/",
          "Article One Headline Text", []⟩).url = l.href) :=
  C9_normalization ⟨2025, 6, 1, 0⟩
    [⟨"/briefings-statements/article-one/",
      "Article One Headline Text", []⟩] _ (by decide)

/-- C10: a URL enters the seen set only when a candidate passes every
filter, so if every earlier hyperlink with a given (normalized) URL
fails the pure filter chain, a later hyperlink with that URL that
passes every filter still produces an entry: the kept occurrence is
the first surviving occurrence, not necessarily the first occurrence. -/
theorem C10_first_surviving_occurrence (now : PyDateTime)
    (pre post : List Link) (l : Link)
    (hk : keepLink [] l = true)
    (hpre : ∀ l2 ∈ pre, normUrl l2.href = normUrl l.href →
      keepLink [] l2 = false) :
    toEntry now l ∈ extract_entries now (pre ++ l :: post) := by
  unfold extract_entries
  rw [(sortByDateDesc_perm _).mem_iff]
  unfold extractCandidates
  rw [extractLoop_eq]
  rw [List.filter_append, List.map_append]
  rw [show List.filter (fun l2 => keepLink [] l2) (l :: post)
      = l :: List.filter (fun l2 => keepLink [] l2) post by
    simp [List.filter_cons, hk]]
  rw [List.map_cons]
  apply dedupFirstAux_mem_first
  · intro e2 he2
    obtain ⟨l2, hl2, rfl⟩ := List.mem_map.mp he2
    have hl2f := List.mem_filter.mp hl2
    rw [toEntry_url, toEntry_url]
    intro hu
    have hfalse := hpre l2 hl2f.1 hu
    rw [hl2f.2] at hfalse
    exact Bool.noConfusion hfalse
  · rfl

/-- Witness for C10: the first link with the URL has a too-short title
and is rejected; the second link with the same URL and an acceptable
title still produces the entry. -/
theorem C10_first_surviving_occurrence_witness :
    toEntry ⟨2025, 3, 1, 0⟩ ⟨"/briefings-statements/article-one/",
        "Article One Has A Long Title", []⟩
      ∈ extract_entries ⟨2025, 3, 1, 0⟩
        [⟨"/briefings-statements/article-one/", "short", []⟩,
         ⟨"/briefings-statements/article-one/",
          "Article One Has A Long Title", []⟩] :=
  C10_first_surviving_occurrence ⟨2025, 3, 1, 0⟩
    [⟨"/briefings-statements/article-one/", "short", []⟩] []
    ⟨"/briefings-statements/article-one/",
     "Article One Has A Long Title", []⟩
    (by decide) (by decide)

/-- C6: the feed file is written only after every entry has been fully
resolved, and a failed listing fetch or an empty extraction writes no
file at all.  First two conjuncts: no write event occurs when the
listing fetch raises or when zero entries are discovered.  Third
conjunct: if a write occurs, the whole run is exactly the per-entry
content fetches followed by the single write of the fully-enriched
feed — every entry's article fetch precedes the write. -/
theorem C6_write_discipline (listing : Option (List Link))
    (now : PyDateTime) (bodyf : String → String) :
    (listing = none →
       ∀ items, Event.wroteFeed items ∉ main ⟨listing, now, bodyf⟩) ∧
    (∀ links, listing = some links → extract_entries now links = [] →
       ∀ items, Event.wroteFeed items ∉ main ⟨listing, now, bodyf⟩) ∧
    (∀ items, Event.wroteFeed items ∈ main ⟨listing, now, bodyf⟩ →
       ∃ links, listing = some links ∧
         main ⟨listing, now, bodyf⟩ = ((extract_entries now links).map
             (fun e => Event.fetchedArticle e.url)) ++
           [Event.wroteFeed (generate_rss (enrichEntries
              ⟨listing, now, bodyf⟩ (extract_entries now links)))] ∧
         items = generate_rss (enrichEntries ⟨listing, now, bodyf⟩
              (extract_entries now links))) := by
  refine ⟨?_, ?_, ?_⟩
  · intro h items
    subst h
    rw [show main ⟨none, now, bodyf⟩ = [] from rfl]
    simp
  · intro links h hempty items
    subst h
    rw [show main ⟨some links, now, bodyf⟩
        = if (extract_entries now links).isEmpty then []
          else ((extract_entries now links).map
              (fun e => Event.fetchedArticle e.url)) ++
            [Event.wroteFeed (generate_rss (enrichEntries
               ⟨some links, now, bodyf⟩ (extract_entries now links)))]
        from rfl]
    rw [hempty]
    simp
  · intro items hmem
    cases listing with
    | none =>
      rw [show main ⟨none, now, bodyf⟩ = [] from rfl] at hmem
      simp at hmem
    | some links =>
      rw [show main ⟨some links, now, bodyf⟩
          = if (extract_entries now links).isEmpty then []
            else ((extract_entries now links).map
                (fun e => Event.fetchedArticle e.url)) ++
              [Event.wroteFeed (generate_rss (enrichEntries
                 ⟨some links, now, bodyf⟩ (extract_entries now links)))]
          from rfl] at hmem
      by_cases hempty : (extract_entries now links).isEmpty = true
      · rw [if_pos hempty] at hmem
        simp at hmem
      · rw [if_neg hempty] at hmem
        have hitems : items = generate_rss (enrichEntries
            ⟨some links, now, bodyf⟩ (extract_entries now links)) := by
          rcases List.mem_append.mp hmem with hleft | hright
          · obtain ⟨e, _, habs⟩ := List.mem_map.mp hleft
            exact Event.noConfusion habs
          · have h3 := List.mem_singleton.mp hright
            simpa using h3
        refine ⟨links, rfl, ?_, hitems⟩
        rw [show main ⟨some links, now, bodyf⟩
            = if (extract_entries now links).isEmpty then []
              else ((extract_entries now links).map
                  (fun e => Event.fetchedArticle e.url)) ++
                [Event.wroteFeed (generate_rss (enrichEntries
                   ⟨some links, now, bodyf⟩ (extract_entries now links)))]
            from rfl]
        rw [if_neg hempty]

/-- Witness for C6 at three concrete worlds: a failed listing fetch
writes nothing, an empty listing writes nothing, and a successful run
over one link is exactly the article fetch followed by the write. -/
theorem C6_write_discipline_witness :
    (Event.wroteFeed [] ∉ main ⟨none, ⟨2025, 1, 1, 0⟩, fun _ => ""⟩) ∧
    (Event.wroteFeed [] ∉ main ⟨some [], ⟨2025, 1, 1, 0⟩, fun _ => ""⟩) ∧
    (∃ links,
      some [(⟨"/briefings-statements/article-one/",
          "Article One Has A Long Title", []⟩ : Link)] = some links ∧
      main ⟨some [⟨"/briefings-statements/article-one/",
          "Article One Has A Long Title", []⟩], ⟨2025, 1, 1, 0⟩,
        fun _ => "Body text for the article goes here, long enough."⟩
        = ((extract_entries ⟨2025, 1, 1, 0⟩ links).map
            (fun e => Event.fetchedArticle e.url)) ++
          [Event.wroteFeed (generate_rss (enrichEntries
            ⟨some [⟨"/briefings-statements/article-one/",
                "Article One Has A Long Title", []⟩], ⟨2025, 1, 1, 0⟩,
              fun _ => "Body text for the article goes here, long enough."⟩
            (extract_entries ⟨2025, 1, 1, 0⟩ links)))] ∧
      generate_rss (enrichEntries
          ⟨some [⟨"/briefings-statements/article-one/",
              "Article One Has A Long Title", []⟩], ⟨2025, 1, 1, 0⟩,
            fun _ => "Body text for the article goes here, long enough."⟩
          (extract_entries ⟨2025, 1, 1, 0⟩
            [⟨"/briefings-statements/article-one/",
              "Article One Has A Long Title", []⟩]))
        = generate_rss (enrichEntries
          ⟨some [⟨"/briefings-statements/article-one/",
              "Article One Has A Long Title", []⟩], ⟨2025, 1, 1, 0⟩,
            fun _ => "Body text for the article goes here, long enough."⟩
          (extract_entries ⟨2025, 1, 1, 0⟩ links))) := by
  refine ⟨?_, ?_, ?_⟩
  · exact (C6_write_discipline none ⟨2025, 1, 1, 0⟩ (fun _ => "")).1 rfl []
  · exact (C6_write_discipline (some []) ⟨2025, 1, 1, 0⟩
      (fun _ => "")).2.1 [] rfl (by decide) []
  · exact (C6_write_discipline
      (some [⟨"/briefings-statements/article-one/",
        "Article One Has A Long Title", []⟩]) ⟨2025, 1, 1, 0⟩
      (fun _ => "Body text for the article goes here, long enough.")).2.2
      (generate_rss (enrichEntries
        ⟨some [⟨"/briefings-statements/article-one/",
            "Article One Has A Long Title", []⟩], ⟨2025, 1, 1, 0⟩,
          fun _ => "Body text for the article goes here, long enough."⟩
        (extract_entries ⟨2025, 1, 1, 0⟩
          [⟨"/briefings-statements/article-one/",
            "Article One Has A Long Title", []⟩])))
      (by decide)

/-- Counterexample to C8 as stated: in a document whose chosen content
region (the `article` element) yields no surviving fragments, and
whose body holds its long text only in a `div`, the code's body retry
— which collects only `<p>` elements — gives up with empty content,
while the spec-described retry of steps 3-4 (paragraph AND block-level
container elements) would return the div's text. -/
theorem C8_counterexample :
    extract_article_content (Node.elem "html" [] none
      [Node.elem "body" [] none
        [Node.elem "article" [] none [],
         Node.elem "div" [] none
           [Node.text "This div has well over twenty characters of text."]]])
      = "" ∧
    specRetryText (Node.elem "html" [] none
      [Node.elem "body" [] none
        [Node.elem "article" [] none [],
         Node.elem "div" [] none
           [Node.text "This div has well over twenty characters of text."]]])
      = "This div has well over twenty characters of text." ∧
    ¬(("" : String)
      = "This div has well over twenty characters of text.") :=
  ⟨rfl, rfl, by decide⟩

/-- C8 (amended): if the chosen content region yields no surviving
text fragments, the extractor retries against the whole document body,
stripping chrome and collecting text from paragraph elements only (not
from `div` block containers), keeping fragments over 20 characters
joined with a blank-line separator, before giving up with empty
content. -/
theorem C8_body_fallback (doc : Node) (region : Node)
    (h1 : chooseRegion doc = some region)
    (h2 : collectParts ["p", "div"] region = []) :
    extract_article_content doc = bodyFallbackText doc ∧
    ∀ b, findFirst (fun n => n.tagOf == some "body") doc = some b →
      collectParts ["p"] b ≠ [] →
      extract_article_content doc = joinNN (collectParts ["p"] b) := by
  have hmain : extract_article_content doc = bodyFallbackText doc := by
    unfold extract_article_content
    rw [h1]
    simp [h2]
  refine ⟨hmain, ?_⟩
  intro b hb hne
  rw [hmain]
  unfold bodyFallbackText
  rw [hb]
  simp only
  rw [if_neg (by simpa using hne)]

/-- Witness for the amended C8: a document whose `article` region is
empty falls back to the body and returns the text of the body's long
paragraph. -/
theorem C8_body_fallback_witness :
    extract_article_content (Node.elem "html" [] none
      [Node.elem "body" [] none
        [Node.elem "article" [] none [],
         Node.elem "p" [] none
           [Node.text "A body paragraph exceeding twenty characters."]]])
      = bodyFallbackText (Node.elem "html" [] none
        [Node.elem "body" [] none
          [Node.elem "article" [] none [],
           Node.elem "p" [] none
             [Node.text "A body paragraph exceeding twenty characters."]]]) ∧
    extract_article_content (Node.elem "html" [] none
      [Node.elem "body" [] none
        [Node.elem "article" [] none [],
         Node.elem "p" [] none
           [Node.text "A body paragraph exceeding twenty characters."]]])
      = joinNN (collectParts ["p"] (Node.elem "body" [] none
          [Node.elem "article" [] none [],
           Node.elem "p" [] none
             [Node.text "A body paragraph exceeding twenty characters."]])) := by
  have h := C8_body_fallback (Node.elem "html" [] none
      [Node.elem "body" [] none
        [Node.elem "article" [] none [],
         Node.elem "p" [] none
           [Node.text "A body paragraph exceeding twenty characters."]]])
    (Node.elem "article" [] none []) rfl rfl
  exact ⟨h.1, h.2 (Node.elem "body" [] none
      [Node.elem "article" [] none [],
       Node.elem "p" [] none
         [Node.text "A body paragraph exceeding twenty characters."]])
    rfl (by decide)⟩

/-- C7: the Feed Assembler sets the item description to the entry's
body when present and non-blank — truncated to 5000 characters plus an
appended `"..."` when longer — and otherwise (content absent, e.g.
after a failed article fetch, or blank) to the synthesized one-line
fallback referencing the title; a body-derived description never
exceeds 5003 characters (5000 plus the three-character ellipsis).  The
code strips the stored body first, which is the identity on every body
the pipeline can store (fourth conjunct), so the strip-fixedness
hypothesis covers all program-reachable entries. -/
theorem C7_description_policy :
    (∀ e c, e.content = some c → pyStrip c = c → ¬(c = "") →
       feedDescription e =
         (if 5000 < c.length then pyTake 5000 c ++ "..." else c) ∧
       (feedDescription e).length ≤ 5003) ∧
    (∀ e, e.content = none →
       feedDescription e = "White House Briefing/Statement: " ++ e.title) ∧
    (∀ e c, e.content = some c → pyStrip c = "" →
       feedDescription e = "White House Briefing/Statement: " ++ e.title) ∧
    (∀ doc, pyStrip (extract_article_content doc)
       = extract_article_content doc) := by
  refine ⟨?_, ?_, ?_, extract_article_content_fixed⟩
  · intro e c hc hfix hne
    have hdesc : feedDescription e =
        (if 5000 < c.length then pyTake 5000 c ++ "..." else c) := by
      simp [feedDescription, hc, hfix, hne]
    refine ⟨hdesc, ?_⟩
    rw [hdesc]
    by_cases h5 : 5000 < c.length
    · rw [if_pos h5]
      have hdots : ("..." : String).length = 3 := by decide
      have h1 : (pyTake 5000 c ++ "...").length
          = (pyTake 5000 c).length + 3 := by
        rw [String.length_append, hdots]
      have h2 : (pyTake 5000 c).length ≤ 5000 := by
        show (c.data.take 5000).length ≤ 5000
        rw [List.length_take]
        exact Nat.min_le_left _ _
      omega
    · rw [if_neg h5]
      omega
  · intro e he
    simp [feedDescription, he]
  · intro e c hc hblank
    simp [feedDescription, hc, hblank]

/-- Witness for C7 at concrete entries: a short non-blank body is used
verbatim (and is within the length bound), an absent body and a blank
body both fall back to the synthesized line. -/
theorem C7_description_policy_witness :
    (feedDescription ⟨"Press Briefing Example",
        "https://www.whitehouse.gov/briefings-statements/x/",
        ⟨2025, 1, 1, 0⟩, "Unknown", some "A body with enough content."⟩ =
      (if 5000 < ("A body with enough content." : String).length then
        pyTake 5000 "A body with enough content." ++ "..."
      else "A body with enough content.") ∧
     (feedDescription ⟨"Press Briefing Example",
        "https://www.whitehouse.gov/briefings-statements/x/",
        ⟨2025, 1, 1, 0⟩, "Unknown",
        some "A body with enough content."⟩).length ≤ 5003) ∧
    feedDescription ⟨"Press Briefing Example",
        "https://www.whitehouse.gov/briefings-statements/x/",
        ⟨2025, 1, 1, 0⟩, "Unknown", none⟩ =
      "White House Briefing/Statement: " ++ "Press Briefing Example" ∧
    feedDescription ⟨"Press Briefing Example",
        "https://www.whitehouse.gov/briefings-statements/x/",
        ⟨2025, 1, 1, 0⟩, "Unknown", some ""⟩ =
      "White House Briefing/Statement: " ++ "Press Briefing Example" :=
  ⟨C7_description_policy.1 _ "A body with enough content." rfl (by decide)
      (by decide),
   C7_description_policy.2.1 _ rfl,
   C7_description_policy.2.2.1 _ "" rfl (by decide)⟩

/-- C3: the Date Resolver is a total function (it returns a timestamp
for every input string by construction and never raises): it tries, in
order, long month/day/year (`'%B %d, %Y'`), abbreviated month/day/year
(`'%b %d, %Y'`) and ISO year-month-day (`'%Y-%m-%d'`), returning the
first successful parse normalized to UTC — in particular the snippet
`"2025-11-14"` is rejected by both month-name formats and resolved by
the ISO format to November 14, 2025 UTC — and on exhaustion of the
formats (or any parse exception, which the per-format `none` results
model) it falls back to the current time, recording the input as
unparseable (`date_warned`). -/
theorem C3_date_resolver :
    (fmtMonthDY monthsFull (pyStrip "2025-11-14").data = none ∧
     fmtMonthDY monthsAbbr (pyStrip "2025-11-14").data = none ∧
     strptimeFmt fmtISO (pyStrip "2025-11-14").data =
       some ⟨2025, 11, 14, 0⟩ ∧
     ∀ now, parse_date now "2025-11-14" = ⟨2025, 11, 14, 0⟩) ∧
    (∀ now s dt,
       strptimeFmt (fmtMonthDY monthsFull) (pyStrip s).data = some dt →
       parse_date now s = dt) ∧
    (∀ now s dt,
       strptimeFmt (fmtMonthDY monthsFull) (pyStrip s).data = none →
       strptimeFmt (fmtMonthDY monthsAbbr) (pyStrip s).data = some dt →
       parse_date now s = dt) ∧
    (∀ now s dt,
       strptimeFmt (fmtMonthDY monthsFull) (pyStrip s).data = none →
       strptimeFmt (fmtMonthDY monthsAbbr) (pyStrip s).data = none →
       strptimeFmt fmtISO (pyStrip s).data = some dt →
       parse_date now s = dt) ∧
    (∀ now s,
       strptimeFmt (fmtMonthDY monthsFull) (pyStrip s).data = none →
       strptimeFmt (fmtMonthDY monthsAbbr) (pyStrip s).data = none →
       strptimeFmt fmtISO (pyStrip s).data = none →
       parse_date now s = now ∧ date_warned s = true) := by
  refine ⟨⟨by decide, by decide, by decide, fun now => ?_⟩, ?_, ?_, ?_, ?_⟩
  · have h1 : strptimeFmt (fmtMonthDY monthsFull) (pyStrip "2025-11-14").data
        = none := by decide
    have h2 : strptimeFmt (fmtMonthDY monthsAbbr) (pyStrip "2025-11-14").data
        = none := by decide
    have h3 : strptimeFmt fmtISO (pyStrip "2025-11-14").data
        = some ⟨2025, 11, 14, 0⟩ := by decide
    simp [parse_date, resolveFormats, h1, h2, h3]
  · intro now s dt h
    simp [parse_date, resolveFormats, h]
  · intro now s dt h1 h2
    simp [parse_date, resolveFormats, h1, h2]
  · intro now s dt h1 h2 h3
    simp [parse_date, resolveFormats, h1, h2, h3]
  · intro now s h1 h2 h3
    constructor
    · simp [parse_date, resolveFormats, h1, h2, h3]
    · simp [date_warned, resolveFormats, h1, h2, h3]

/-- Witness for C3 at concrete inputs: `"November 14, 2025"` parses via
the first format; `"garbage"` exhausts all formats and falls back. -/
theorem C3_date_resolver_witness :
    parse_date ⟨1999, 1, 1, 5⟩ "November 14, 2025" = ⟨2025, 11, 14, 0⟩ ∧
    parse_date ⟨1999, 1, 1, 5⟩ "garbage" = ⟨1999, 1, 1, 5⟩ ∧
    date_warned "garbage" = true := by
  refine ⟨?_, ?_, ?_⟩
  · exact C3_date_resolver.2.1 ⟨1999, 1, 1, 5⟩ "November 14, 2025"
      ⟨2025, 11, 14, 0⟩ (by decide)
  · exact (C3_date_resolver.2.2.2.2 ⟨1999, 1, 1, 5⟩ "garbage"
      (by decide) (by decide) (by decide)).1
  · exact (C3_date_resolver.2.2.2.2 ⟨1999, 1, 1, 5⟩ "garbage"
      (by decide) (by decide) (by decide)).2

end WHScraper
